import Mathlib

/-!
A shallow embedding of the scheduling / resource-protocol code in src/pa2.c.

Processes live in a table (field procs) and are referred to by pid, which
models C pointers to process objects: the ready queue, the per-resource wait
queues, the current slot and the owner slots all hold pids.  Operations that
in C dereference a pointer look the pid up in the table; a failed lookup, a
NULL dereference or a failed assert is modelled as an explicit Fault value,
so every operation is a total Lean function into Except Fault.
-/

namespace PA2

/-- Process status.  Modelled from the spec (process.h is not under src/):
READY, RUNNING, WAITING, TERMINATED; the code refers to the first three as
PROCESS_READY, PROCESS_RUNNING, PROCESS_WAIT. -/
inductive Status where
  | ready
  | running
  | waiting
  | terminated
deriving Repr, DecidableEq

/-- A process record: identity, status, ticks already executed and total
ticks required.  Modelled from the spec (process.h is not under src/);
the priority fields are omitted since no code under src/ reads them. -/
structure Process where
  pid : Nat
  status : Status
  age : Nat
  lifespan : Nat
deriving Repr, DecidableEq

/-- One entry of the resources array: an owner pointer (pid, none = NULL)
and the waitqueue of blocked processes (pids, head = front of the list). -/
structure Resource where
  owner : Option Nat
  waitqueue : List Nat
deriving Repr, DecidableEq

/-- The ambient globals the callbacks in pa2.c read and mutate: the process
table (the pool of live process objects), the current pointer, the ready
queue and the resources array. -/
structure MachState where
  procs : List Process
  current : Option Nat
  readyqueue : List Nat
  resources : List Resource
deriving Repr, DecidableEq

/-- The ways a callback can crash: dereferencing NULL, following a pid
that resolves to no process object (a dangling pointer), or one of the two
asserts in fcfs_release firing. -/
inductive Fault where
  | nullDeref
  | badPointer
  | assertOwner
  | assertWaiterStatus
deriving Repr, DecidableEq

/-- First process record in a table carrying the given pid. -/
def lookupPid : List Process → Nat → Option Process
  | [], _ => none
  | p :: ps, pid => if p.pid = pid then some p else lookupPid ps pid

/-- Resolve a pid to its process record (a C pointer dereference). -/
def MachState.findProc (st : MachState) (pid : Nat) : Option Process :=
  lookupPid st.procs pid

/-- Write the status field of the process object named by pid. -/
def MachState.setStatus (st : MachState) (pid : Nat) (s : Status) : MachState :=
  { st with procs := st.procs.map (fun p => if p.pid = pid then { p with status := s } else p) }

/-- Read the resources array at an index (resources + resource_id). -/
def MachState.getRes (st : MachState) (rid : Nat) : Option Resource :=
  st.resources.get? rid

/-- Write the resources array at an index. -/
def MachState.setRes (st : MachState) (rid : Nat) (r : Resource) : MachState :=
  { st with resources := st.resources.set rid r }

@[simp] theorem findProc_setRes (st : MachState) (i : Nat) (r : Resource) (n : Nat) :
    (st.setRes i r).findProc n = st.findProc n := rfl

@[simp] theorem readyqueue_setRes (st : MachState) (i : Nat) (r : Resource) :
    (st.setRes i r).readyqueue = st.readyqueue := rfl

@[simp] theorem current_setRes (st : MachState) (i : Nat) (r : Resource) :
    (st.setRes i r).current = st.current := rfl

@[simp] theorem procs_setRes (st : MachState) (i : Nat) (r : Resource) :
    (st.setRes i r).procs = st.procs := rfl

@[simp] theorem getRes_setStatus (st : MachState) (pid : Nat) (s : Status) (i : Nat) :
    (st.setStatus pid s).getRes i = st.getRes i := rfl

@[simp] theorem readyqueue_setStatus (st : MachState) (pid : Nat) (s : Status) :
    (st.setStatus pid s).readyqueue = st.readyqueue := rfl

@[simp] theorem current_setStatus (st : MachState) (pid : Nat) (s : Status) :
    (st.setStatus pid s).current = st.current := rfl

/-- Embedding of fcfs_acquire (src/pa2.c lines 65-89).  If the resource has
no owner, store the current pointer into the owner slot and return true.
Otherwise set the current process status to PROCESS_WAIT, append current to
the tail of the resource waitqueue, and return false. -/
def fcfs_acquire (resource_id : Nat) (st : MachState) : Except Fault (Bool × MachState) :=
  match st.getRes resource_id with
  | none => .error .badPointer
  | some r =>
    match r.owner with
    | none => .ok (true, st.setRes resource_id { r with owner := st.current })
    | some _ =>
      match st.current with
      | none => .error .nullDeref
      | some c =>
        .ok (false, (st.setStatus c .waiting).setRes resource_id
          { r with waitqueue := r.waitqueue ++ [c] })

/-- Embedding of fcfs_release (src/pa2.c lines 100-137).  Assert the caller
owns the resource (pointer comparison of owner against current), clear the
owner slot; if the waitqueue is non-empty pop its head, assert the head has
status PROCESS_WAIT, mark it PROCESS_READY and append it to the ready-queue
tail. -/
def fcfs_release (resource_id : Nat) (st : MachState) : Except Fault MachState :=
  match st.getRes resource_id with
  | none => .error .badPointer
  | some r =>
    if r.owner = st.current then
      let st1 := st.setRes resource_id { r with owner := none }
      match r.waitqueue with
      | [] => .ok st1
      | w :: rest =>
        match st1.findProc w with
        | none => .error .badPointer
        | some wp =>
          if wp.status = Status.waiting then
            let st2 := st1.setRes resource_id { owner := none, waitqueue := rest }
            let st3 := st2.setStatus w Status.ready
            .ok { st3 with readyqueue := st3.readyqueue ++ [w] }
          else .error .assertWaiterStatus
    else .error .assertOwner

/-- The pick_next tail of fifo_schedule (src/pa2.c lines 180-199): pop the
head of the ready queue if there is one, otherwise return NULL. -/
def fifo_pick (st : MachState) : Except Fault (Option Nat × MachState) :=
  match st.readyqueue with
  | [] => .ok (none, st)
  | n :: rest => .ok (some n, { st with readyqueue := rest })

/-- Embedding of fifo_schedule (src/pa2.c lines 155-200).  Keep the current
process when it exists, is not waiting and has remaining lifetime; otherwise
pick the head of the ready queue. -/
def fifo_schedule (st : MachState) : Except Fault (Option Nat × MachState) :=
  match st.current with
  | none => fifo_pick st
  | some c =>
    match st.findProc c with
    | none => .error .badPointer
    | some cp =>
      if cp.status = Status.waiting then fifo_pick st
      else if cp.age < cp.lifespan then .ok (some c, st)
      else fifo_pick st

/-- The list_for_each_entry scan shared by sjf_schedule and srtf_schedule:
walk the queue keeping the best pid so far, replacing it whenever a later
entry has a strictly smaller key (so the first occurrence of the minimum
wins).  Both the best-so-far pointer and the visited entry are dereferenced
at each step, as in the C loop condition. -/
def scan_min (st : MachState) (key : Process → Nat) : List Nat → Nat → Except Fault Nat
  | [], best => .ok best
  | n :: rest, best =>
    match st.findProc best, st.findProc n with
    | some bp, some np =>
      if key np < key bp then scan_min st key rest n
      else scan_min st key rest best
    | _, _ => .error Fault.badPointer

/-- The pick branch of sjf_schedule (src/pa2.c lines 244-251): scan the whole
ready queue for the minimum-lifespan process, assign it to the global
current, detach it from the ready queue and return it; with an empty ready
queue return NULL (the initial value of next) without touching current. -/
def sjf_pick (st : MachState) : Except Fault (Option Nat × MachState) :=
  match st.readyqueue with
  | [] => .ok (none, st)
  | first :: _ =>
    match scan_min st (fun p => p.lifespan) st.readyqueue first with
    | .error f => .error f
    | .ok w => .ok (some w, { st with current := some w, readyqueue := st.readyqueue.erase w })

/-- Embedding of sjf_schedule (src/pa2.c lines 227-253): same continuation
rule as FIFO, then the minimum-lifespan pick. -/
def sjf_schedule (st : MachState) : Except Fault (Option Nat × MachState) :=
  match st.current with
  | none => sjf_pick st
  | some c =>
    match st.findProc c with
    | none => .error .badPointer
    | some cp =>
      if cp.status = Status.waiting then sjf_pick st
      else if cp.age < cp.lifespan then .ok (some c, st)
      else sjf_pick st

/-- Embedding of srtf_schedule (src/pa2.c lines 281-319).  With a non-empty
ready queue: scan it for the minimum-remaining process (init), then compare
against current.  With an empty ready queue the C condition
current != NULL || current-&gt;status == PROCESS_RUNNING evaluates
current-&gt;status whenever current is NULL, which is a NULL dereference;
when current is non-NULL the branch returns current whenever
age &lt; lifespan, without ever checking for PROCESS_WAIT. -/
def srtf_schedule (st : MachState) : Except Fault (Option Nat × MachState) :=
  match st.readyqueue with
  | first :: _ =>
    match scan_min st (fun p => p.lifespan - p.age) st.readyqueue first with
    | .error f => .error f
    | .ok w =>
      match st.current with
      | none => .ok (some w, { st with readyqueue := st.readyqueue.erase w })
      | some c =>
        match st.findProc c with
        | none => .error .badPointer
        | some cp =>
          if cp.status = Status.waiting then
            .ok (some w, { st with readyqueue := st.readyqueue.erase w })
          else if cp.age < cp.lifespan then
            match st.findProc w with
            | none => .error .badPointer
            | some wp =>
              if wp.lifespan - wp.age < cp.lifespan - cp.age then
                .ok (some w, { st with readyqueue := c :: st.readyqueue.erase w })
              else
                .ok (some c, st)
          else
            .ok (some w, { st with readyqueue := st.readyqueue.erase w })
  | [] =>
    match st.current with
    | none => .error .nullDeref
    | some c =>
      match st.findProc c with
      | none => .error .badPointer
      | some cp =>
        if cp.age < cp.lifespan then .ok (some c, st)
        else .ok (none, st)

/-- The stub initialize callbacks (fifo_initialize, sjf_initialize,
srtf_initialize in src/pa2.c): they all just return 0. -/
def trivial_init : Unit → Int := fun _ => 0

/-- The stub finalize callbacks (fifo_finalize, sjf_finalize, srtf_finalize
in src/pa2.c): they do nothing. -/
def trivial_fin : Unit → Unit := fun _ => ()

/-- A struct scheduler (sched.h): five callback slots.  A designated
initializer in C leaves unmentioned function pointers NULL, modelled here
as none. -/
structure Scheduler where
  name : String
  acquire : Option (Nat → MachState → Except Fault (Bool × MachState)) := none
  release : Option (Nat → MachState → Except Fault MachState) := none
  init : Option (Unit → Int) := none
  finalize : Option (Unit → Unit) := none
  schedule : Option (MachState → Except Fault (Option Nat × MachState)) := none

/-- fifo_scheduler (src/pa2.c lines 202-209): all five callbacks present. -/
def fifo_scheduler : Scheduler :=
  { name := "FIFO", acquire := some fcfs_acquire, release := some fcfs_release,
    init := some trivial_init, finalize := some trivial_fin,
    schedule := some fifo_schedule }

/-- sjf_scheduler (src/pa2.c lines 255-264): all five callbacks present. -/
def sjf_scheduler : Scheduler :=
  { name := "Shortest-Job First", acquire := some fcfs_acquire, release := some fcfs_release,
    init := some trivial_init, finalize := some trivial_fin,
    schedule := some sjf_schedule }

/-- srtf_scheduler (src/pa2.c lines 323-331): all five callbacks present. -/
def srtf_scheduler : Scheduler :=
  { name := "Shortest Remaining Time First", acquire := some fcfs_acquire,
    release := some fcfs_release, init := some trivial_init,
    finalize := some trivial_fin, schedule := some srtf_schedule }

/-- rr_scheduler (src/pa2.c lines 337-344): only name, acquire and release
are initialized; schedule, initialize and finalize are left NULL. -/
def rr_scheduler : Scheduler :=
  { name := "Round-Robin", acquire := some fcfs_acquire, release := some fcfs_release }

/-- prio_scheduler (src/pa2.c lines 350-357): only the name is initialized. -/
def prio_scheduler : Scheduler :=
  { name := "Priority" }

/-- pip_scheduler (src/pa2.c lines 363-370): only the name is initialized. -/
def pip_scheduler : Scheduler :=
  { name := "Priority + Priority Inheritance Protocol" }

/-- The configuration errors of the error-handling design. -/
inductive ConfigError where
  | policyNotImplemented
deriving Repr, DecidableEq

/-- Whether all five callback slots of a scheduler are populated. -/
def hasAllCallbacks (s : Scheduler) : Bool :=
  s.acquire.isSome && s.release.isSome && s.init.isSome &&
    s.finalize.isSome && s.schedule.isSome

/-- Modelled from the spec: the initialization-time configuration check of
the simulation driver (the driver code is not under src/; only the
scheduler structs it validates are).  A configured policy variant with any
missing callback must be rejected with PolicyNotImplemented, never run with
null behavior. -/
def validate_policy (s : Scheduler) : Except ConfigError Unit :=
  if hasAllCallbacks s then .ok () else .error .policyNotImplemented

/-- The key of a pid under a scan, after dereferencing it (0 is never
reached in the lemmas, which assume every pid resolves). -/
def keyAt (st : MachState) (key : Process → Nat) (n : Nat) : Nat :=
  match st.findProc n with
  | some p => key p
  | none => 0

/-- Remaining lifetime of a process, lifespan - age as computed by the C
code (the operands are unsigned; on well-formed states age does not exceed
lifespan, where truncated subtraction agrees with the integers). -/
def remaining (p : Process) : Nat := p.lifespan - p.age

/-- The situations in which fifo_schedule and sjf_schedule fall through to
their pick code: no current process, or a current that is waiting or has
exhausted its lifespan. -/
def needs_pick (st : MachState) : Prop :=
  st.current = none ∨
    ∃ c cp, st.current = some c ∧ st.findProc c = some cp ∧
      (cp.status = Status.waiting ∨ ¬ cp.age < cp.lifespan)

theorem keyAt_eq (st : MachState) (key : Process → Nat) {n : Nat} {p : Process}
    (h : st.findProc n = some p) : keyAt st key n = key p := by
  simp [keyAt, h]

theorem get?_set_self {α : Type} : ∀ (l : List α) (i : Nat) (a : α),
    i < l.length → (l.set i a).get? i = some a := by
  intro l
  induction l with
  | nil => intro i a h; simp at h
  | cons x xs ih =>
    intro i a h
    cases i with
    | zero => rfl
    | succ j =>
      have hj : j < xs.length := by simpa using h
      simpa [List.set, List.get?] using ih j a hj

theorem get?_set_other {α : Type} : ∀ (l : List α) (i j : Nat) (a : α),
    j ≠ i → (l.set i a).get? j = l.get? j := by
  intro l
  induction l with
  | nil => intro i j a _; simp
  | cons x xs ih =>
    intro i j a hne
    cases i with
    | zero =>
      cases j with
      | zero => exact absurd rfl hne
      | succ k => rfl
    | succ i' =>
      cases j with
      | zero => rfl
      | succ k =>
        have : k ≠ i' := fun h => hne (by simp [h])
        simpa [List.set, List.get?] using ih i' k a this

theorem lookup_map_setStatus (pid : Nat) (s : Status) : ∀ (l : List Process),
    lookupPid (l.map (fun p => if p.pid = pid then { p with status := s } else p)) pid
      = (lookupPid l pid).map (fun p => { p with status := s }) := by
  intro l
  induction l with
  | nil => rfl
  | cons h t ih =>
    by_cases hp : h.pid = pid
    · simp [lookupPid, hp, ih]
    · simp [lookupPid, hp, ih]

/-- Status updates are visible through every later dereference of the pid,
and do not disturb the record apart from its status field. -/
theorem findProc_setStatus (st : MachState) (pid : Nat) (s : Status) :
    (st.setStatus pid s).findProc pid
      = (st.findProc pid).map (fun p => { p with status := s }) := by
  simpa [MachState.setStatus, MachState.findProc] using
    lookup_map_setStatus pid s st.procs

/-- The scan of the C list_for_each_entry loops: when every pid involved
resolves, the scan succeeds and returns a member of the scanned list (or
the seed) that attains the minimum key, and whose every strict predecessor
in the list has a strictly larger key (the strict comparison keeps the
first occurrence of the minimum). -/
theorem scan_min_spec (st : MachState) (key : Process → Nat) :
    ∀ (l : List Nat) (best : Nat),
    (st.findProc best).isSome →
    (∀ n ∈ l, (st.findProc n).isSome) →
    ∃ w, scan_min st key l best = .ok w ∧
      (w = best ∨ w ∈ l) ∧
      keyAt st key w ≤ keyAt st key best ∧
      (∀ n ∈ l, keyAt st key w ≤ keyAt st key n) ∧
      (w = best ∨ (keyAt st key w < keyAt st key best ∧
        ∃ l₁ l₂, l = l₁ ++ w :: l₂ ∧ ∀ n ∈ l₁, keyAt st key w < keyAt st key n)) := by
  intro l
  induction l with
  | nil =>
    intro best _ _
    exact ⟨best, rfl, Or.inl rfl, le_refl _, by simp, Or.inl rfl⟩
  | cons n rest ih =>
    intro best hb hl
    have hn : (st.findProc n).isSome := hl n (List.mem_cons_self n rest)
    have hrest : ∀ m ∈ rest, (st.findProc m).isSome :=
      fun m hm => hl m (List.mem_cons_of_mem n hm)
    obtain ⟨bp, hbp⟩ := Option.isSome_iff_exists.mp hb
    obtain ⟨np, hnp⟩ := Option.isSome_iff_exists.mp hn
    have hkb : keyAt st key best = key bp := keyAt_eq st key hbp
    have hkn : keyAt st key n = key np := keyAt_eq st key hnp
    by_cases hcmp : key np < key bp
    · obtain ⟨w, hscan, hmem, hle, hall, hfirst⟩ := ih n hn hrest
      refine ⟨w, ?_, ?_, ?_, ?_, ?_⟩
      · simp [scan_min, hbp, hnp, hcmp, hscan]
      · rcases hmem with h | h
        · exact Or.inr (h ▸ List.mem_cons_self n rest)
        · exact Or.inr (List.mem_cons_of_mem n h)
      · calc keyAt st key w ≤ keyAt st key n := hle
          _ ≤ keyAt st key best := by rw [hkb, hkn]; exact le_of_lt hcmp
      · intro m hm
        rcases List.mem_cons.mp hm with h | h
        · exact h ▸ hle
        · exact hall m h
      · refine Or.inr ⟨?_, ?_⟩
        · calc keyAt st key w ≤ keyAt st key n := hle
            _ < keyAt st key best := by rw [hkb, hkn]; exact hcmp
        · rcases hfirst with h | ⟨hlt, l₁, l₂, hsplit, hpred⟩
          · exact ⟨[], rest, by simp [h], by simp⟩
          · refine ⟨n :: l₁, l₂, by simp [hsplit], ?_⟩
            intro m hm
            rcases List.mem_cons.mp hm with h | h
            · rw [h, hkn]; rw [hkn] at hlt; exact hlt
            · exact hpred m h
    · obtain ⟨w, hscan, hmem, hle, hall, hfirst⟩ := ih best hb hrest
      have hbn : keyAt st key best ≤ keyAt st key n := by
        rw [hkb, hkn]; exact le_of_not_lt hcmp
      refine ⟨w, ?_, ?_, hle, ?_, ?_⟩
      · simp [scan_min, hbp, hnp, hcmp, hscan]
      · rcases hmem with h | h
        · exact Or.inl h
        · exact Or.inr (List.mem_cons_of_mem n h)
      · intro m hm
        rcases List.mem_cons.mp hm with h | h
        · exact h ▸ le_trans hle hbn
        · exact hall m h
      · rcases hfirst with h | ⟨hlt, l₁, l₂, hsplit, hpred⟩
        · exact Or.inl h
        · refine Or.inr ⟨hlt, n :: l₁, l₂, by simp [hsplit], ?_⟩
          intro m hm
          rcases List.mem_cons.mp hm with h | h
          · exact h ▸ lt_of_lt_of_le hlt hbn
          · exact hpred m h

theorem get?_some_lt {α : Type} : ∀ (l : List α) (i : Nat) (a : α),
    l.get? i = some a → i < l.length := by
  intro l
  induction l with
  | nil => intro i a h; simp [List.get?] at h
  | cons x xs ih =>
    intro i a h
    cases i with
    | zero => simp
    | succ j =>
      have hj := ih j a (by simpa [List.get?] using h)
      simpa using Nat.succ_lt_succ hj

/-- Under the fall-through situations, fifo_schedule runs its pick code. -/
theorem fifo_schedule_pick (st : MachState) (h : needs_pick st) :
    fifo_schedule st = fifo_pick st := by
  rcases h with hc | ⟨c, cp, hc, hcp, hcond⟩
  · simp [fifo_schedule, hc]
  · rcases hcond with hw | hage
    · simp [fifo_schedule, hc, hcp, hw]
    · by_cases hw : cp.status = Status.waiting
      · simp [fifo_schedule, hc, hcp, hw]
      · simp [fifo_schedule, hc, hcp, hw, if_neg hage]

/-- Under the fall-through situations, sjf_schedule runs its pick code. -/
theorem sjf_schedule_pick (st : MachState) (h : needs_pick st) :
    sjf_schedule st = sjf_pick st := by
  rcases h with hc | ⟨c, cp, hc, hcp, hcond⟩
  · simp [sjf_schedule, hc]
  · rcases hcond with hw | hage
    · simp [sjf_schedule, hc, hcp, hw]
    · by_cases hw : cp.status = Status.waiting
      · simp [sjf_schedule, hc, hcp, hw]
      · simp [sjf_schedule, hc, hcp, hw, if_neg hage]

/-- C1.  For every call to acquire(resource_id): if the resource's owner
slot is empty, the current process becomes the owner and the call returns
true; otherwise the current process's status is set to WAITING, it is
appended to the tail of that resource's wait queue, and the call returns
false. -/
theorem fcfs_acquire_correct (st : MachState) (rid : Nat) (r : Resource) (c : Nat)
    (hr : st.getRes rid = some r) (hc : st.current = some c) :
    (r.owner = none →
      fcfs_acquire rid st
        = .ok (true, st.setRes rid { owner := some c, waitqueue := r.waitqueue })) ∧
    (r.owner ≠ none →
      ∃ st2, fcfs_acquire rid st = .ok (false, st2) ∧
        st2.getRes rid = some { owner := r.owner, waitqueue := r.waitqueue ++ [c] } ∧
        st2.findProc c = (st.findProc c).map (fun p => { p with status := Status.waiting }) ∧
        st2.current = st.current ∧
        st2.readyqueue = st.readyqueue) := by
  have hlt : rid < st.resources.length := get?_some_lt st.resources rid r hr
  constructor
  · intro ho
    simp [fcfs_acquire, hr, ho, hc]
  · intro ho
    obtain ⟨o, hoe⟩ := Option.ne_none_iff_exists'.mp ho
    refine ⟨(st.setStatus c Status.waiting).setRes rid
      { r with waitqueue := r.waitqueue ++ [c] }, ?_, ?_, ?_, rfl, rfl⟩
    · simp [fcfs_acquire, hr, hoe, hc]
    · show ((st.setStatus c Status.waiting).resources.set rid _).get? rid = _
      rw [show (st.setStatus c Status.waiting).resources = st.resources from rfl,
        get?_set_self _ _ _ hlt]
    · rw [findProc_setRes, findProc_setStatus]

/-- C1 witness: a concrete denied acquire (resource 0 already owned). -/
def stC1 : MachState :=
  { procs := [{ pid := 1, status := .running, age := 2, lifespan := 5 },
              { pid := 2, status := .ready, age := 0, lifespan := 4 }],
    current := some 1, readyqueue := [],
    resources := [{ owner := some 2, waitqueue := [] }] }

/-- The resource record of stC1. -/
def resC1 : Resource := { owner := some 2, waitqueue := [] }

theorem fcfs_acquire_correct_witness :
    stC1.getRes 0 = some resC1 ∧ stC1.current = some 1 ∧ resC1.owner ≠ none ∧
    (∃ st2, fcfs_acquire 0 stC1 = .ok (false, st2) ∧
      st2.getRes 0 = some { owner := resC1.owner, waitqueue := resC1.waitqueue ++ [1] } ∧
      st2.findProc 1
        = (stC1.findProc 1).map (fun p => { p with status := Status.waiting }) ∧
      st2.current = stC1.current ∧
      st2.readyqueue = stC1.readyqueue) :=
  ⟨by decide, by decide, by decide,
    (fcfs_acquire_correct stC1 0 resC1 1 (by decide) (by decide)).2 (by decide)⟩

/-- C2.  release(resource_id) fails with the OwnershipViolation assert
exactly when the caller is not the recorded owner; when the caller owns the
resource it clears the owner slot, and a non-empty wait queue has its head
popped, marked READY and appended to the ready-queue tail, the owner slot
staying empty. -/
theorem fcfs_release_correct (st : MachState) (rid : Nat) (r : Resource) (c : Nat)
    (hr : st.getRes rid = some r) (hc : st.current = some c) :
    (fcfs_release rid st = .error Fault.assertOwner ↔ r.owner ≠ some c) ∧
    (r.owner = some c → r.waitqueue = [] →
      fcfs_release rid st = .ok (st.setRes rid { owner := none, waitqueue := r.waitqueue })) ∧
    (r.owner = some c → ∀ w rest, r.waitqueue = w :: rest →
      ∀ wp, st.findProc w = some wp → wp.status = Status.waiting →
      ∃ st2, fcfs_release rid st = .ok st2 ∧
        st2.getRes rid = some { owner := none, waitqueue := rest } ∧
        st2.findProc w = some { wp with status := Status.ready } ∧
        st2.readyqueue = st.readyqueue ++ [w] ∧
        st2.current = st.current) := by
  have hlt : rid < st.resources.length := get?_some_lt st.resources rid r hr
  refine ⟨⟨?_, ?_⟩, ?_, ?_⟩
  · intro he heq
    have hcond : r.owner = st.current := by rw [heq, hc]
    cases hwq : r.waitqueue with
    | nil => simp [fcfs_release, hr, hcond, hwq] at he
    | cons w rest =>
      cases hfw : st.findProc w with
      | none => simp [fcfs_release, hr, hcond, hwq, hfw] at he
      | some wp =>
        by_cases hst : wp.status = Status.waiting
        · simp [fcfs_release, hr, hcond, hwq, hfw, hst] at he
        · simp [fcfs_release, hr, hcond, hwq, hfw, hst] at he
  · intro hne
    have hcond : ¬ r.owner = st.current := by rw [hc]; exact hne
    simp [fcfs_release, hr, hcond]
  · intro ho hwq
    have hcond : r.owner = st.current := by rw [ho, hc]
    simp [fcfs_release, hr, hcond, hwq]
  · intro ho w rest hwq wp hfw hst
    have hcond : r.owner = st.current := by rw [ho, hc]
    refine ⟨{ ((st.setRes rid { r with owner := none }).setRes rid
        { owner := none, waitqueue := rest }).setStatus w Status.ready with
        readyqueue := st.readyqueue ++ [w] }, ?_, ?_, ?_, rfl, rfl⟩
    · simp [fcfs_release, hr, hcond, hwq, hfw, hst, MachState.setStatus]
    · show ((((st.setRes rid { r with owner := none }).setRes rid
          { owner := none, waitqueue := rest }).setStatus w Status.ready).getRes rid) = _
      rw [getRes_setStatus]
      show ((st.resources.set rid _).set rid _).get? rid = _
      rw [get?_set_self _ _ _ (by simpa using hlt)]
    · show ((((st.setRes rid { r with owner := none }).setRes rid
          { owner := none, waitqueue := rest }).setStatus w Status.ready).findProc w) = _
      rw [findProc_setStatus, findProc_setRes, findProc_setRes, hfw]
      rfl

/-- C2 witness: a concrete release with one waiter on the queue. -/
def stC2 : MachState :=
  { procs := [{ pid := 1, status := .running, age := 2, lifespan := 5 },
              { pid := 2, status := .waiting, age := 1, lifespan := 4 }],
    current := some 1, readyqueue := [3],
    resources := [{ owner := some 1, waitqueue := [2] }] }

/-- The resource record of stC2. -/
def resC2 : Resource := { owner := some 1, waitqueue := [2] }

/-- The head waiter of stC2. -/
def wpC2 : Process := { pid := 2, status := .waiting, age := 1, lifespan := 4 }

theorem fcfs_release_correct_witness :
    stC2.getRes 0 = some resC2 ∧ stC2.current = some 1 ∧ resC2.owner = some 1 ∧
    resC2.waitqueue = [2] ∧ stC2.findProc 2 = some wpC2 ∧ wpC2.status = Status.waiting ∧
    (∃ st2, fcfs_release 0 stC2 = .ok st2 ∧
      st2.getRes 0 = some { owner := none, waitqueue := [] } ∧
      st2.findProc 2 = some { wpC2 with status := Status.ready } ∧
      st2.readyqueue = stC2.readyqueue ++ [2] ∧
      st2.current = stC2.current) :=
  ⟨by decide, by decide, by decide, by decide, by decide, by decide,
    (fcfs_release_correct stC2 0 resC2 1 (by decide) (by decide)).2.2
      (by decide) 2 [] (by decide) wpC2 (by decide) (by decide)⟩

/-- C10.  A granted acquire changes only the owner slot of the requested
resource: the process table, the current slot, the ready queue, that
resource's wait queue and every other resource are untouched. -/
theorem fcfs_acquire_granted_frame (st st2 : MachState) (rid : Nat) (c : Nat)
    (hc : st.current = some c)
    (hok : fcfs_acquire rid st = .ok (true, st2)) :
    ∃ r, st.getRes rid = some r ∧ r.owner = none ∧
      st2.procs = st.procs ∧ st2.current = st.current ∧
      st2.readyqueue = st.readyqueue ∧
      st2.getRes rid = some { owner := some c, waitqueue := r.waitqueue } ∧
      (∀ j, j ≠ rid → st2.getRes j = st.getRes j) := by
  cases hres : st.getRes rid with
  | none => simp [fcfs_acquire, hres] at hok
  | some r =>
    have hlt : rid < st.resources.length := get?_some_lt st.resources rid r hres
    cases ho : r.owner with
    | some o =>
      simp [fcfs_acquire, hres, ho, hc] at hok
    | none =>
      simp only [fcfs_acquire, hres, ho] at hok
      injection hok with h1
      injection h1 with h2 h3
      have hst2 : st2 = st.setRes rid { r with owner := st.current } := h3.symm
      refine ⟨r, rfl, ho, ?_, ?_, ?_, ?_, ?_⟩
      · rw [hst2]; rfl
      · rw [hst2]; rfl
      · rw [hst2]; rfl
      · rw [hst2]
        show (st.resources.set rid _).get? rid = _
        rw [get?_set_self _ _ _ hlt, hc]
      · intro j hj
        rw [hst2]
        show (st.resources.set rid _).get? j = st.resources.get? j
        exact get?_set_other _ _ _ _ hj

/-- C10 witness: a concrete granted acquire on a two-resource table. -/
def stC10 : MachState :=
  { procs := [{ pid := 1, status := .running, age := 2, lifespan := 5 }],
    current := some 1, readyqueue := [4],
    resources := [{ owner := none, waitqueue := [] },
                  { owner := some 7, waitqueue := [8] }] }

/-- The state stC10 after the granted acquire of resource 0. -/
def stC10ok : MachState :=
  { procs := [{ pid := 1, status := .running, age := 2, lifespan := 5 }],
    current := some 1, readyqueue := [4],
    resources := [{ owner := some 1, waitqueue := [] },
                  { owner := some 7, waitqueue := [8] }] }

theorem fcfs_acquire_granted_frame_witness :
    stC10.current = some 1 ∧ fcfs_acquire 0 stC10 = .ok (true, stC10ok) ∧
    (∃ r, stC10.getRes 0 = some r ∧ r.owner = none ∧
      stC10ok.procs = stC10.procs ∧ stC10ok.current = stC10.current ∧
      stC10ok.readyqueue = stC10.readyqueue ∧
      stC10ok.getRes 0 = some { owner := some 1, waitqueue := r.waitqueue } ∧
      (∀ j, j ≠ 0 → stC10ok.getRes j = stC10.getRes j)) :=
  ⟨by decide, rfl,
    fcfs_acquire_granted_frame stC10 stC10ok 0 1 (by decide) rfl⟩

/-- C7.  FIFO: a current process that exists, is not WAITING and has
age below lifespan is returned unchanged; otherwise the head of the ready
queue is removed and returned, and an empty ready queue yields no
process. -/
theorem fifo_schedule_correct (st : MachState) :
    (∀ c cp, st.current = some c → st.findProc c = some cp →
      cp.status ≠ Status.waiting → cp.age < cp.lifespan →
      fifo_schedule st = .ok (some c, st)) ∧
    (needs_pick st → st.readyqueue = [] → fifo_schedule st = .ok (none, st)) ∧
    (needs_pick st → ∀ n rest, st.readyqueue = n :: rest →
      fifo_schedule st = .ok (some n, { st with readyqueue := rest })) := by
  refine ⟨?_, ?_, ?_⟩
  · intro c cp hc hcp hw hage
    simp [fifo_schedule, hc, hcp, hw, hage]
  · intro hnp hq
    rw [fifo_schedule_pick st hnp]
    simp [fifo_pick, hq]
  · intro hnp n rest hq
    rw [fifo_schedule_pick st hnp]
    simp [fifo_pick, hq]

/-- C7 witness: no current process, two ready processes; the head runs. -/
def stC7 : MachState :=
  { procs := [{ pid := 5, status := .ready, age := 0, lifespan := 3 },
              { pid := 6, status := .ready, age := 0, lifespan := 9 }],
    current := none, readyqueue := [5, 6], resources := [] }

theorem fifo_schedule_correct_witness :
    needs_pick stC7 ∧ stC7.readyqueue = 5 :: [6] ∧
    fifo_schedule stC7 = .ok (some 5, { stC7 with readyqueue := [6] }) :=
  ⟨Or.inl rfl, rfl, (fifo_schedule_correct stC7).2.2 (Or.inl rfl) 5 [6] rfl⟩

/-- C6.  When SJF needs a new pick and the ready queue is non-empty, the
process removed and returned has the minimum lifespan of all ready-queue
members, and every member occurring before it in queue order has a
strictly larger lifespan (strict comparison: first occurrence wins
ties). -/
theorem sjf_schedule_min_lifespan (st : MachState)
    (hnp : needs_pick st) (hne : st.readyqueue ≠ [])
    (hres : ∀ n ∈ st.readyqueue, (st.findProc n).isSome) :
    ∃ w wp, st.findProc w = some wp ∧
      sjf_schedule st
        = .ok (some w, { st with current := some w, readyqueue := st.readyqueue.erase w }) ∧
      w ∈ st.readyqueue ∧
      (∀ n ∈ st.readyqueue, ∀ np, st.findProc n = some np → wp.lifespan ≤ np.lifespan) ∧
      (∃ l₁ l₂, st.readyqueue = l₁ ++ w :: l₂ ∧
        ∀ n ∈ l₁, ∀ np, st.findProc n = some np → wp.lifespan < np.lifespan) := by
  obtain ⟨first, tail, hq⟩ : ∃ a l, st.readyqueue = a :: l := by
    cases h : st.readyqueue with
    | nil => exact absurd h hne
    | cons a l => exact ⟨a, l, rfl⟩
  have hfs : (st.findProc first).isSome := hres first (by rw [hq]; exact List.mem_cons_self _ _)
  obtain ⟨w, hscan, hmem, _, hall, hfirst⟩ :=
    scan_min_spec st (fun p => p.lifespan) st.readyqueue first hfs hres
  have hwmem : w ∈ st.readyqueue := by
    rcases hmem with h | h
    · rw [h, hq]; exact List.mem_cons_self _ _
    · exact h
  obtain ⟨wp, hwp⟩ := Option.isSome_iff_exists.mp (hres w hwmem)
  have hkw : keyAt st (fun p => p.lifespan) w = wp.lifespan := keyAt_eq st _ hwp
  have hscan2 : scan_min st (fun p => p.lifespan) st.readyqueue first = .ok w := hscan
  refine ⟨w, wp, hwp, ?_, hwmem, ?_, ?_⟩
  · rw [sjf_schedule_pick st hnp]
    rw [sjf_pick, hq]
    simp only [← hq, hscan2]
  · intro n hn np hnp'
    have := hall n hn
    rwa [hkw, keyAt_eq st _ hnp'] at this
  · rcases hfirst with h | ⟨_, l₁, l₂, hsplit, hpred⟩
    · refine ⟨[], tail, by simp [hq, h], by intro n hn; simp at hn⟩
    · refine ⟨l₁, l₂, hsplit, ?_⟩
      intro n hn np hnp'
      have := hpred n hn
      rwa [hkw, keyAt_eq st _ hnp'] at this

/-- C6 witness: three ready processes with lifespans 5, 3, 3; the first
process with lifespan 3 is picked. -/
def stC6 : MachState :=
  { procs := [{ pid := 7, status := .ready, age := 0, lifespan := 5 },
              { pid := 8, status := .ready, age := 0, lifespan := 3 },
              { pid := 9, status := .ready, age := 0, lifespan := 3 }],
    current := none, readyqueue := [7, 8, 9], resources := [] }

theorem sjf_schedule_min_lifespan_witness :
    needs_pick stC6 ∧ stC6.readyqueue ≠ [] ∧
    (∃ w wp, stC6.findProc w = some wp ∧
      sjf_schedule stC6
        = .ok (some w,
            { stC6 with current := some w, readyqueue := stC6.readyqueue.erase w }) ∧
      w ∈ stC6.readyqueue ∧
      (∀ n ∈ stC6.readyqueue, ∀ np, stC6.findProc n = some np → wp.lifespan ≤ np.lifespan) ∧
      (∃ l₁ l₂, stC6.readyqueue = l₁ ++ w :: l₂ ∧
        ∀ n ∈ l₁, ∀ np, stC6.findProc n = some np → wp.lifespan < np.lifespan)) :=
  ⟨Or.inl rfl, by decide,
    sjf_schedule_min_lifespan stC6 (Or.inl rfl) (by decide) (by decide)⟩

/-- C3.  SRTF with a non-empty ready queue and an eligible current: the
scan finds the first ready process m of minimum remaining time; if the
current's remaining time is at most m's, the current keeps running, and if
m's is strictly smaller, m is removed from the ready queue, the current is
inserted at its head, and m is returned. -/
theorem srtf_preemption_decision (st : MachState) (c : Nat) (cp : Process)
    (hne : st.readyqueue ≠ []) (hc : st.current = some c) (hcp : st.findProc c = some cp)
    (hw : cp.status ≠ Status.waiting) (he : cp.age < cp.lifespan)
    (hres : ∀ n ∈ st.readyqueue, (st.findProc n).isSome) :
    ∃ m mp, st.findProc m = some mp ∧ m ∈ st.readyqueue ∧
      (∀ n ∈ st.readyqueue, ∀ np, st.findProc n = some np → remaining mp ≤ remaining np) ∧
      (∃ l₁ l₂, st.readyqueue = l₁ ++ m :: l₂ ∧
        ∀ n ∈ l₁, ∀ np, st.findProc n = some np → remaining mp < remaining np) ∧
      (remaining cp ≤ remaining mp → srtf_schedule st = .ok (some c, st)) ∧
      (remaining mp < remaining cp →
        srtf_schedule st = .ok (some m, { st with readyqueue := c :: st.readyqueue.erase m })) := by
  obtain ⟨first, tail, hq⟩ : ∃ a l, st.readyqueue = a :: l := by
    cases h : st.readyqueue with
    | nil => exact absurd h hne
    | cons a l => exact ⟨a, l, rfl⟩
  have hfs : (st.findProc first).isSome := hres first (by rw [hq]; exact List.mem_cons_self _ _)
  obtain ⟨m, hscan, hmem, _, hall, hfirst⟩ :=
    scan_min_spec st (fun p => p.lifespan - p.age) st.readyqueue first hfs hres
  have hmmem : m ∈ st.readyqueue := by
    rcases hmem with h | h
    · rw [h, hq]; exact List.mem_cons_self _ _
    · exact h
  obtain ⟨mp, hmp⟩ := Option.isSome_iff_exists.mp (hres m hmmem)
  have hkm : keyAt st (fun p => p.lifespan - p.age) m = remaining mp := keyAt_eq st _ hmp
  refine ⟨m, mp, hmp, hmmem, ?_, ?_, ?_, ?_⟩
  · intro n hn np hnp'
    have := hall n hn
    rwa [hkm, keyAt_eq st _ hnp'] at this
  · rcases hfirst with h | ⟨_, l₁, l₂, hsplit, hpred⟩
    · refine ⟨[], tail, by simp [hq, h], by intro n hn; simp at hn⟩
    · refine ⟨l₁, l₂, hsplit, ?_⟩
      intro n hn np hnp'
      have := hpred n hn
      rwa [hkm, keyAt_eq st _ hnp'] at this
  · intro hle
    have hnlt : ¬ mp.lifespan - mp.age < cp.lifespan - cp.age := not_lt.mpr hle
    rw [srtf_schedule, hq]
    simp only [← hq, hscan, hc, hcp, hmp]
    simp [hw, he, hnlt]
  · intro hlt
    have hlt2 : mp.lifespan - mp.age < cp.lifespan - cp.age := hlt
    rw [srtf_schedule, hq]
    simp only [← hq, hscan, hc, hcp, hmp]
    simp [hw, he, hlt2]

/-- C3 witness: current has remaining 5, the sole ready process remaining
3; the ready process preempts and the current is head-inserted. -/
def stC3 : MachState :=
  { procs := [{ pid := 1, status := .running, age := 0, lifespan := 5 },
              { pid := 2, status := .ready, age := 0, lifespan := 3 }],
    current := some 1, readyqueue := [2], resources := [] }

/-- The current process record of stC3. -/
def cpC3 : Process := { pid := 1, status := .running, age := 0, lifespan := 5 }

theorem srtf_preemption_decision_witness :
    stC3.readyqueue ≠ [] ∧ stC3.current = some 1 ∧ stC3.findProc 1 = some cpC3 ∧
    cpC3.status ≠ Status.waiting ∧ cpC3.age < cpC3.lifespan ∧
    (∃ m mp, stC3.findProc m = some mp ∧ m ∈ stC3.readyqueue ∧
      (∀ n ∈ stC3.readyqueue, ∀ np, stC3.findProc n = some np →
        remaining mp ≤ remaining np) ∧
      (∃ l₁ l₂, stC3.readyqueue = l₁ ++ m :: l₂ ∧
        ∀ n ∈ l₁, ∀ np, stC3.findProc n = some np → remaining mp < remaining np) ∧
      (remaining cpC3 ≤ remaining mp → srtf_schedule stC3 = .ok (some 1, stC3)) ∧
      (remaining mp < remaining cpC3 →
        srtf_schedule stC3
          = .ok (some m, { stC3 with readyqueue := 1 :: stC3.readyqueue.erase m }))) :=
  ⟨by decide, rfl, by decide, by decide, by decide,
    srtf_preemption_decision stC3 1 cpC3 (by decide) rfl (by decide) (by decide)
      (by decide) (by decide)⟩

/-- C4.  The claim asks srtf_schedule to return no process on an idle tick
(empty ready queue, no current); the code instead evaluates the status
field through the NULL current pointer, because line 313 guards the branch
with a disjunction instead of a conjunction.  This theorem evaluates the
embedded code at that state: it faults. -/
theorem srtf_schedule_null_deref (st : MachState)
    (hq : st.readyqueue = []) (hc : st.current = none) :
    srtf_schedule st = .error Fault.nullDeref := by
  rw [srtf_schedule, hq, hc]

/-- C4 witness: the concrete idle state. -/
def stC4 : MachState :=
  { procs := [], current := none, readyqueue := [], resources := [] }

theorem srtf_schedule_null_deref_witness :
    stC4.readyqueue = [] ∧ stC4.current = none ∧
    srtf_schedule stC4 = .error Fault.nullDeref :=
  ⟨rfl, rfl, srtf_schedule_null_deref stC4 rfl rfl⟩

/-- C5.  The claim states no schedule callback ever returns a WAITING or
terminal process.  srtf_schedule violates it: with an empty ready queue it
returns the current process whenever age is below lifespan, never checking
the status, so a current that just blocked on a resource (status WAITING)
is returned.  The WAITING hypothesis is deliberately unused by the proof:
the branch ignores the status. -/
theorem srtf_schedule_returns_waiting (st : MachState) (c : Nat) (cp : Process)
    (hq : st.readyqueue = []) (hc : st.current = some c)
    (hcp : st.findProc c = some cp)
    (hwait : cp.status = Status.waiting) (he : cp.age < cp.lifespan) :
    srtf_schedule st = .ok (some c, st) := by
  rw [srtf_schedule, hq, hc]
  simp [hcp, he]

/-- C5 witness: a WAITING current (sitting in resource 0's wait queue)
with an empty ready queue is returned by srtf_schedule. -/
def stC5 : MachState :=
  { procs := [{ pid := 1, status := .waiting, age := 1, lifespan := 5 }],
    current := some 1, readyqueue := [],
    resources := [{ owner := some 2, waitqueue := [1] }] }

/-- The WAITING current process record of stC5. -/
def cpC5 : Process := { pid := 1, status := .waiting, age := 1, lifespan := 5 }

theorem srtf_schedule_returns_waiting_witness :
    stC5.readyqueue = [] ∧ stC5.current = some 1 ∧ stC5.findProc 1 = some cpC5 ∧
    cpC5.status = Status.waiting ∧ cpC5.age < cpC5.lifespan ∧
    srtf_schedule stC5 = .ok (some 1, stC5) :=
  ⟨rfl, rfl, by decide, rfl, by decide,
    srtf_schedule_returns_waiting stC5 1 cpC5 rfl rfl (by decide) rfl (by decide)⟩

/-- C8.  Every scheduler variant with a missing callback slot is rejected
by the initialization-time validation with PolicyNotImplemented; the
Round-Robin, Priority and Priority-Inheritance structs of pa2.c are in
that situation, while FIFO, SJF and SRTF pass validation. -/
theorem stub_policies_rejected :
    (∀ s : Scheduler,
      (s.acquire.isNone ∨ s.release.isNone ∨ s.init.isNone ∨
        s.finalize.isNone ∨ s.schedule.isNone) →
      validate_policy s = .error ConfigError.policyNotImplemented) ∧
    validate_policy rr_scheduler = .error ConfigError.policyNotImplemented ∧
    validate_policy prio_scheduler = .error ConfigError.policyNotImplemented ∧
    validate_policy pip_scheduler = .error ConfigError.policyNotImplemented ∧
    validate_policy fifo_scheduler = .ok () ∧
    validate_policy sjf_scheduler = .ok () ∧
    validate_policy srtf_scheduler = .ok () := by
  refine ⟨?_, rfl, rfl, rfl, rfl, rfl, rfl⟩
  intro s hmiss
  have hfalse : hasAllCallbacks s = false := by
    rcases hmiss with h | h | h | h | h <;>
      simp [hasAllCallbacks, Option.isNone_iff_eq_none.mp h]
  rw [validate_policy, hfalse]
  rfl

theorem stub_policies_rejected_witness :
    (rr_scheduler.schedule.isNone ∨ rr_scheduler.release.isNone ∨
      rr_scheduler.init.isNone ∨ rr_scheduler.finalize.isNone ∨
      rr_scheduler.schedule.isNone) ∧
    validate_policy rr_scheduler = .error ConfigError.policyNotImplemented :=
  ⟨Or.inl rfl,
    stub_policies_rejected.1 rr_scheduler
      (Or.inr (Or.inr (Or.inl rfl)))⟩

/-- C9.  Each core operation is a function of the machine state alone:
two invocations from identical states return identical values and leave
identical states, so replaying the same call sequence from the same
configuration reproduces the same decisions. -/
theorem core_ops_deterministic (s₁ s₂ : MachState) (rid : Nat) (h : s₁ = s₂) :
    fcfs_acquire rid s₁ = fcfs_acquire rid s₂ ∧
    fcfs_release rid s₁ = fcfs_release rid s₂ ∧
    fifo_schedule s₁ = fifo_schedule s₂ ∧
    sjf_schedule s₁ = sjf_schedule s₂ ∧
    srtf_schedule s₁ = srtf_schedule s₂ := by
  subst h
  exact ⟨rfl, rfl, rfl, rfl, rfl⟩

/-- C9 witness: a concrete state compared with itself. -/
def stC9 : MachState :=
  { procs := [{ pid := 1, status := .running, age := 1, lifespan := 3 }],
    current := some 1, readyqueue := [],
    resources := [{ owner := none, waitqueue := [] }] }

theorem core_ops_deterministic_witness :
    stC9 = stC9 ∧
    (fcfs_acquire 0 stC9 = fcfs_acquire 0 stC9 ∧
      fcfs_release 0 stC9 = fcfs_release 0 stC9 ∧
      fifo_schedule stC9 = fifo_schedule stC9 ∧
      sjf_schedule stC9 = sjf_schedule stC9 ∧
      srtf_schedule stC9 = srtf_schedule stC9) :=
  ⟨rfl, core_ops_deterministic stC9 stC9 0 rfl⟩

end PA2
